import Mathlib

set_option maxHeartbeats 1000000

/-!
Shallow embedding of `nonebot_plugin_zxreport/data_source.py`.

Python sequences become Lean lists, Python `int` becomes `Int`, raised
exceptions become `Except` errors.  `pyGet` models Python list indexing
(`xs[k]`), including the negative-index wrap-around and the `IndexError`
raised when the index is out of range.
-/

inductive PyErr
  | indexError
deriving DecidableEq, Repr

deriving instance DecidableEq for Except

/-- Python list indexing `xs[k]`: a negative `k` counts from the end; an
index out of range raises `IndexError`. -/
def pyGet {α : Type} (xs : List α) (k : Int) : Except PyErr α :=
  let i : Int := if k < 0 then k + xs.length else k
  if h : 0 ≤ i ∧ i.toNat < xs.length then .ok (xs.get ⟨i.toNat, h.2⟩)
  else .error .indexError

/-!
## Festival calculator

`Report.festival_calculation` (data_source.py lines 105-119).  The current
date enters only through `n = (datetime.now() - datetime(2016, 1, 1)).days`,
so the embedding takes `n` as a parameter; `favs_arr` and `favs_list`
(imported from the plugin's config module) are parameters as well.
-/

/-- One element of the generator
`(favs_arr[i + j] - n, favs_list[favs_arr[i + j + 1]])` at `j = 2*j2`. -/
def festPair (arr : List Int) (lst : List String) (n : Int) (i j2 : Nat) :
    Except PyErr (Int × String) := do
  let a ← pyGet arr ((i + 2 * j2 : Nat) : Int)
  let b ← pyGet arr ((i + 2 * j2 + 1 : Nat) : Int)
  let name ← pyGet lst b
  pure (a - n, name)

/-- `result.extend((favs_arr[i+j] - n, favs_list[favs_arr[i+j+1]]) for j in
range(0, 14, 2))`: the 7 generator elements, any `IndexError` propagating. -/
def festWindow (arr : List Int) (lst : List String) (n : Int) (i : Nat) :
    Except PyErr (List (Int × String)) :=
  (List.range 7).mapM (festPair arr lst n i)

/-- The index sequence `range(0, len, 2)`: the even numbers below `len`,
in increasing order. -/
def festIndices (len : Nat) : List Nat :=
  (List.range ((len + 1) / 2)).map (fun t => 2 * t)

/-- The `for i in range(0, len(favs_arr), 2)` loop body with its `break`:
walk the remaining indices; at the first index whose threshold is `>= n`
build the 14-element window and stop. -/
def festLoop (arr : List Int) (lst : List String) (n : Int) :
    List Nat → Except PyErr (List (Int × String))
  | [] => .ok []
  | i :: rest =>
    if n ≤ arr.getD i 0 then festWindow arr lst n i
    else festLoop arr lst n rest

/-- `Report.festival_calculation`, parameterized by the dataset and by the
day count `n` since 2016-01-01. -/
def festival_calculation (arr : List Int) (lst : List String) (n : Int) :
    Except PyErr (List (Int × String)) :=
  festLoop arr lst n (festIndices arr.length)

/-!
## Resilient fetcher

`AsyncHttpx.get` (data_source.py lines 25-44): an `httpx` GET wrapped in a
`tenacity` retry decorator with `stop_after_attempt(3)`, `wait_fixed(1)` and
`retry_if_exception_type((TimeoutException, ConnectError, HTTPStatusError))`.
The body performs the request, calls `raise_for_status()`, and on one of the
three transient exception types logs `f"Request to {url} failed due to: {e}"`
and re-raises.  The network is modelled by an oracle `outcomes : Nat → Except
Exc String` giving each attempt's result; `wait_fixed(1)` delays are counted.
With tenacity's default `reraise=False`, exhausting the attempt budget raises
`RetryError` wrapping the last attempt's exception.
-/

inductive Exc
  | timeout
  | connectError
  | httpStatusError
  | otherError
deriving DecidableEq, Repr

/-- The exception classes named in `retry_if_exception_type` (and in the
`except` clause of the body). -/
def isTransient : Exc → Bool
  | .timeout => true
  | .connectError => true
  | .httpStatusError => true
  | .otherError => false

structure LogEntry where
  url : String
  cause : Exc
deriving DecidableEq, Repr

/-- One execution of the decorated function's body: a success returns the
response; a transient failure is logged with the URL and the cause and
re-raised; any other exception propagates unlogged. -/
def attemptOnce (url : String) (o : Except Exc String) :
    List LogEntry × Except Exc String :=
  match o with
  | .ok r => ([], .ok r)
  | .error e => (if isTransient e then [⟨url, e⟩] else [], .error e)

inductive FetchFailure
  | raised (e : Exc)
  | retryError (last : Exc)
deriving DecidableEq, Repr

structure FetchRun where
  logs : List LogEntry
  delays : Nat
  attempts : Nat
  result : Except FetchFailure String
deriving DecidableEq, Repr

/-- The tenacity driver loop: `fuel` is the number of retries still allowed
(2 at the start, for `stop_after_attempt(3)`), `k` the index of the attempt
about to run; a `wait_fixed(1)` delay is counted before every retry. -/
def retryLoop (url : String) (outcomes : Nat → Except Exc String) :
    Nat → Nat → List LogEntry → Nat → FetchRun
  | fuel, k, logs, delays =>
    let step := attemptOnce url (outcomes k)
    match step.2 with
    | .ok v => ⟨logs ++ step.1, delays, k + 1, .ok v⟩
    | .error e =>
      if isTransient e then
        match fuel with
        | 0 => ⟨logs ++ step.1, delays, k + 1, .error (.retryError e)⟩
        | f + 1 => retryLoop url outcomes f (k + 1) (logs ++ step.1) (delays + 1)
      else ⟨logs ++ step.1, delays, k + 1, .error (.raised e)⟩

/-- `AsyncHttpx.get(url)` under the attempt oracle `outcomes`. -/
def asyncHttpxGet (url : String) (outcomes : Nat → Except Exc String) :
    FetchRun :=
  retryLoop url outcomes 2 0 [] 0

/-!
## Source adapters

Each adapter fetches its fixed endpoint once and normalizes the body; the
embeddings below take the already-decoded body as input.
-/

/-- One element of the `list` array in the trending JSON body. -/
structure BiliItem where
  keyword : String
deriving DecidableEq, Repr

/-- `Report.get_bili` body (lines 128-133): `[item["keyword"] for item in
data["list"]]`, where `items` models `data["list"]`. -/
def get_bili (items : List BiliItem) : List String :=
  items.map (fun item => item.keyword)

/-- `Report.get_six` body (lines 135-140): `data.data.news[:11] if
len(data.data.news) > 11 else data.data.news`, where `news` models the
validated `data.data.news` list. -/
def get_six (news : List String) : List String :=
  if news.length > 11 then news.take 11 else news

/-- One `channel/item` element of the RSS document: `title` is the text of
its `<title>` child, or `none` when the item has no `<title>` element. -/
structure XmlItem where
  title : Option String
deriving DecidableEq, Repr

/-- The RSS document, reduced to the elements `root.findall("./channel/item")`
returns, in document order. -/
structure RssRoot where
  items : List XmlItem
deriving DecidableEq, Repr

/-- The loop body of `Report.get_it`: `if title_element is not None:
titles.append(title_element.text)`. -/
def collectTitle (acc : List String) (item : XmlItem) : List String :=
  match item.title with
  | some t => acc ++ [t]
  | none => acc

/-- `Report.get_it` body (lines 142-152): collect the title text of every
`channel/item` having a `<title>` element, then truncate past 11. -/
def get_it (root : RssRoot) : List String :=
  let titles := root.items.foldl collectTitle []
  if titles.length > 11 then titles.take 11 else titles

/-- One entry of a weekday's `items` array in the bangumi calendar body. -/
structure AnimeItem where
  name_cn : Option String
  name : String
  image : String
deriving DecidableEq, Repr

/-- One element of the calendar JSON array (one weekday's worth of data). -/
structure AnimeDay where
  items : List AnimeItem
deriving DecidableEq, Repr

/-- `data.name_cn or data.name`: the localized name when present and
non-empty, else the primary name. -/
def animeName (d : AnimeItem) : String :=
  match d.name_cn with
  | some s => if s = "" then d.name else s
  | none => d.name

/-- `Report.get_anime` body (lines 154-167): index the calendar array by the
current weekday, falling back to `res.json()[-1]` on `IndexError`; map the
selected day's items to `(name_cn or name, image)` pairs; truncate past 8. -/
def get_anime (arr : List AnimeDay) (week : Nat) :
    Except PyErr (List (String × String)) :=
  match
    (match pyGet arr (week : Int) with
      | .ok day => Except.ok day
      | .error _ => pyGet arr (-1)) with
  | .error e => .error e
  | .ok anime =>
    let data_list := anime.items.map (fun d => (animeName d, d.image))
    .ok (if data_list.length > 8 then data_list.take 8 else data_list)

/-!
## Daily cache and report assembler

`Report.get_report_image` (lines 72-103) and `save` (lines 47-51).  The
filesystem directory of date-keyed `.png` files becomes an association list
from the date string to the stored bytes; `save` prepends (the fresh file
shadows nothing, since it is written only on a miss).  External collaborators
(the five HTTP adapters' outcomes, the renderer `template_to_pic`, the lunar
date fragment) are supplied by an environment record; the festival data
`favs_arr` / `favs_list` and the day count `n` parameterize the local
`festival_calculation` call.  `fetches` counts how many adapter fetches the
call performed.
-/

abbrev Bytes := List Nat

structure ReportData where
  data_festival : List (Int × String)
  data_hitokoto : String
  data_bili : List String
  data_six : List String
  data_anime : List (String × String)
  data_it : List String
  week : String
  date : String
  zh_date : String
deriving DecidableEq, Repr

/-- The `Report.week` dict (lines 62-70), total with an unused default. -/
def weekLabel : Nat → String
  | 0 => "一"
  | 1 => "二"
  | 2 => "三"
  | 3 => "四"
  | 4 => "五"
  | 5 => "六"
  | 6 => "日"
  | _ => ""

structure Env where
  favs_arr : List Int
  favs_list : List String
  n : Int
  hitokoto : Except String String
  bili : Except String (List String)
  six : Except String (List String)
  anime : Except String (List (String × String))
  it : Except String (List String)
  weekday : Nat
  zh_date : String
  render : ReportData → Except String Bytes

structure ReportState where
  cache : List (String × Bytes)
deriving DecidableEq, Repr

/-- `REPORT_PATH / f"{now.date()}.png"` existence / read. -/
def cacheLookup (s : ReportState) (date : String) : Option Bytes :=
  (s.cache.find? (fun p => p.1 == date)).map (fun p => p.2)

structure CallResult where
  result : Except String Bytes
  state : ReportState
  fetches : Nat
deriving DecidableEq, Repr

/-- `Report.get_report_image`: return the cached file when it exists;
otherwise evaluate the `data` dict fields in order (festival calculation,
then the five awaited adapters), render, `save`, and return the bytes.  Any
raised exception propagates and skips everything after it. -/
def get_report_image (date : String) (env : Env) (s : ReportState) :
    CallResult :=
  match cacheLookup s date with
  | some bs => ⟨.ok bs, s, 0⟩
  | none =>
    match festival_calculation env.favs_arr env.favs_list env.n with
    | .error _ => ⟨.error "IndexError", s, 0⟩
    | .ok fest =>
      match env.hitokoto with
      | .error e => ⟨.error e, s, 1⟩
      | .ok hito =>
        match env.bili with
        | .error e => ⟨.error e, s, 2⟩
        | .ok bl =>
          match env.six with
          | .error e => ⟨.error e, s, 3⟩
          | .ok sx =>
            match env.anime with
            | .error e => ⟨.error e, s, 4⟩
            | .ok an =>
              match env.it with
              | .error e => ⟨.error e, s, 5⟩
              | .ok itl =>
                match env.render
                  ⟨fest, hito, bl, sx, an, itl,
                    weekLabel env.weekday, date, env.zh_date⟩ with
                | .error e => ⟨.error e, s, 5⟩
                | .ok bs => ⟨.ok bs, ⟨(date, bs) :: s.cache⟩, 5⟩

/-!
## Helper lemmas
-/

theorem pyGet_int_ok {α : Type} (xs : List α) (k : Int) (d : α) (h0 : 0 ≤ k)
    (h1 : k.toNat < xs.length) : pyGet xs k = .ok (xs.getD k.toNat d) := by
  unfold pyGet
  have hk : ¬ k < 0 := by omega
  simp only [hk, if_false]
  rw [dif_pos ⟨h0, h1⟩]
  rw [List.getD_eq_getElem xs d h1]
  simp [List.get_eq_getElem]

theorem pyGet_nat_ok {α : Type} (xs : List α) (k : Nat) (d : α)
    (h : k < xs.length) : pyGet xs (k : Int) = .ok (xs.getD k d) := by
  have := pyGet_int_ok xs (k : Int) d (by omega) (by simpa using h)
  simpa using this

theorem pyGet_nat_err {α : Type} (xs : List α) (k : Nat)
    (h : xs.length ≤ k) : pyGet xs (k : Int) = .error .indexError := by
  unfold pyGet
  have hk : ¬ (k : Int) < 0 := by omega
  simp only [hk, if_false]
  rw [dif_neg]
  intro hc
  omega

theorem pyGet_nil {α : Type} (k : Int) :
    pyGet ([] : List α) k = .error .indexError := by
  unfold pyGet
  rw [dif_neg]
  intro hc
  rcases hc with ⟨-, hc⟩
  simp at hc

theorem getLastD_eq_getD_pred {α : Type} :
    ∀ (xs : List α) (d : α), xs.getLastD d = xs.getD (xs.length - 1) d
  | [], _ => rfl
  | [_], _ => rfl
  | a :: b :: t, d => by
    rw [List.getLastD_cons, getLastD_eq_getD_pred (b :: t) a]
    have h1 : (b :: t).length - 1 < (b :: t).length := by simp
    rw [List.getD_eq_getElem (b :: t) a h1]
    have h2 : (a :: b :: t).length - 1 = ((b :: t).length - 1) + 1 := by simp
    rw [h2, List.getD_cons_succ, List.getD_eq_getElem (b :: t) d h1]

theorem pyGet_neg_one {α : Type} (xs : List α) (d : α) (h : xs ≠ []) :
    pyGet xs (-1) = .ok (xs.getLastD d) := by
  have hlen : 0 < xs.length := List.length_pos.mpr h
  have heq : pyGet xs (-1) = pyGet xs (-1 + xs.length) := by
    unfold pyGet
    have hl : (-1 : Int) < 0 := by omega
    have hnl : ¬ ((-1 : Int) + (xs.length : Int) < 0) := by omega
    simp only [hl, if_true, hnl, if_false]
  have h2 := pyGet_int_ok xs (-1 + xs.length) d (by omega)
    (by omega)
  have ht : ((-1 : Int) + xs.length).toNat = xs.length - 1 := by omega
  rw [heq, h2, ht, getLastD_eq_getD_pred]

theorem ok_bind {ε α β : Type} (a : α) (f : α → Except ε β) :
    (Except.ok a >>= f) = f a := rfl

theorem error_bind {ε α β : Type} (e : ε) (f : α → Except ε β) :
    (Except.error e >>= f) = Except.error e := rfl

theorem mapM_ok_of {γ ε β : Type} (f : γ → Except ε β) (g : γ → β) :
    ∀ l : List γ, (∀ x ∈ l, f x = .ok (g x)) → l.mapM f = .ok (l.map g) := by
  intro l
  induction l with
  | nil => intro _; rfl
  | cons a t ih =>
    intro h
    rw [List.mapM_cons, h a (by simp), ih (fun x hx => h x (by simp [hx]))]
    rfl

theorem mapM_ok_mem {γ ε β : Type} (f : γ → Except ε β) :
    ∀ (l : List γ) (r : List β), l.mapM f = .ok r →
      ∀ x ∈ l, ∃ y, f x = .ok y := by
  intro l
  induction l with
  | nil => simp
  | cons a t ih =>
    intro r h x hx
    rw [List.mapM_cons] at h
    rcases ha : f a with e | y
    · rw [ha, error_bind] at h
      exact absurd h (by simp)
    · rw [ha, ok_bind] at h
      rcases ht : t.mapM f with e | ys
      · rw [ht, error_bind] at h
        exact absurd h (by simp)
      · rcases List.mem_cons.mp hx with rfl | hxt
        · exact ⟨y, ha⟩
        · exact ih ys ht x hxt

theorem take_if_gt {α : Type} (l : List α) (n : Nat) :
    (if l.length > n then l.take n else l) = l.take n := by
  by_cases h : l.length > n
  · rw [if_pos h]
  · rw [if_neg h, List.take_of_length_le (by omega)]

theorem festLoop_all_lt (arr : List Int) (lst : List String) (n : Int) :
    ∀ L : List Nat, (∀ i ∈ L, arr.getD i 0 < n) →
      festLoop arr lst n L = .ok [] := by
  intro L
  induction L with
  | nil => intro _; rfl
  | cons a t ih =>
    intro h
    have ha : arr.getD a 0 < n := h a (by simp)
    simp only [festLoop]
    rw [if_neg (by omega)]
    exact ih (fun i hi => h i (by simp [hi]))

theorem festLoop_append_match (arr : List Int) (lst : List String) (n : Int)
    (i : Nat) (L2 : List Nat) :
    ∀ L1 : List Nat, (∀ k ∈ L1, arr.getD k 0 < n) → n ≤ arr.getD i 0 →
      festLoop arr lst n (L1 ++ i :: L2) = festWindow arr lst n i := by
  intro L1
  induction L1 with
  | nil =>
    intro _ hm
    simp only [List.nil_append, festLoop]
    rw [if_pos hm]
  | cons a t ih =>
    intro h hm
    have ha : arr.getD a 0 < n := h a (by simp)
    simp only [List.cons_append, festLoop]
    rw [if_neg (by omega)]
    exact ih (fun k hk => h k (by simp [hk])) hm

theorem mem_festIndices (len k : Nat) (h : k ∈ festIndices len) :
    k % 2 = 0 ∧ k < len := by
  unfold festIndices at h
  obtain ⟨t, ht, rfl⟩ := List.mem_map.mp h
  have := List.mem_range.mp ht
  omega

theorem festIndices_split (len i : Nat) (hlt : i < len) (hev : i % 2 = 0) :
    ∃ L2, festIndices len =
      (List.range (i / 2)).map (fun t => 2 * t) ++ i :: L2 := by
  have hqm : i / 2 < (len + 1) / 2 := by omega
  have h1 : (len + 1) / 2 = i / 2 + ((len + 1) / 2 - i / 2 - 1 + 1) := by omega
  refine ⟨(List.range ((len + 1) / 2 - i / 2 - 1)).map
    (fun t => 2 * (i / 2 + t.succ)), ?_⟩
  unfold festIndices
  rw [h1, List.range_add, List.range_succ_eq_map]
  simp only [List.map_append, List.map_map, List.map_cons, Function.comp]
  rw [show 2 * (i / 2 + 0) = i by omega]
  rw [show i / 2 + ((len + 1) / 2 - i / 2 - 1 + 1) - i / 2 - 1 =
    (len + 1) / 2 - i / 2 - 1 from by omega]
  rfl

theorem festival_first_match (arr : List Int) (lst : List String) (n : Int)
    (i : Nat) (hev : i % 2 = 0) (hlt : i < arr.length)
    (hge : n ≤ arr.getD i 0)
    (hbefore : ∀ k, k < i → k % 2 = 0 → arr.getD k 0 < n) :
    festival_calculation arr lst n = festWindow arr lst n i := by
  obtain ⟨L2, hsplit⟩ := festIndices_split arr.length i hlt hev
  unfold festival_calculation
  rw [hsplit]
  apply festLoop_append_match
  · intro k hk
    obtain ⟨t, ht, rfl⟩ := List.mem_map.mp hk
    have htq := List.mem_range.mp ht
    exact hbefore _ (by omega) (by omega)
  · exact hge

theorem festWindow_ok (arr : List Int) (lst : List String) (n : Int) (i : Nat)
    (hb : i + 13 < arr.length)
    (hlab : ∀ j, j < 7 → 0 ≤ arr.getD (i + 2 * j + 1) 0 ∧
      arr.getD (i + 2 * j + 1) 0 < lst.length) :
    festWindow arr lst n i = .ok ((List.range 7).map (fun j =>
      (arr.getD (i + 2 * j) 0 - n,
        lst.getD (arr.getD (i + 2 * j + 1) 0).toNat ""))) := by
  apply mapM_ok_of
  intro j hj
  have hj7 : j < 7 := List.mem_range.mp hj
  obtain ⟨hl0, hl1⟩ := hlab j hj7
  unfold festPair
  rw [pyGet_nat_ok arr (i + 2 * j) 0 (by omega), ok_bind,
    pyGet_nat_ok arr (i + 2 * j + 1) 0 (by omega), ok_bind,
    pyGet_int_ok lst _ "" hl0 (by omega), ok_bind]
  rfl

theorem festWindow_err (arr : List Int) (lst : List String) (n : Int) (i : Nat)
    (hb : arr.length ≤ i + 13) :
    festWindow arr lst n i = .error .indexError := by
  rcases hw : festWindow arr lst n i with e | r
  · cases e; rfl
  · exfalso
    obtain ⟨y, hy⟩ := mapM_ok_mem _ _ _ hw 6 (by simp)
    unfold festPair at hy
    rcases h1 : pyGet arr ((i + 2 * 6 : Nat) : Int) with e1 | a
    · rw [h1, error_bind] at hy
      exact absurd hy (by simp)
    · rw [h1, ok_bind] at hy
      rcases h2 : pyGet arr ((i + 2 * 6 + 1 : Nat) : Int) with e2 | b
      · rw [h2, error_bind] at hy
        exact absurd hy (by simp)
      · rw [pyGet_nat_err arr (i + 2 * 6 + 1) (by omega)] at h2
        exact absurd h2 (by simp)

theorem retryLoop_attempts (url : String) (outcomes : Nat → Except Exc String) :
    ∀ (fuel k : Nat) (logs : List LogEntry) (delays : Nat),
      (retryLoop url outcomes fuel k logs delays).attempts ≤ k + fuel + 1 := by
  intro fuel
  induction fuel with
  | zero =>
    intro k logs delays
    rw [retryLoop]
    rcases ho : outcomes k with e | v
    · by_cases ht : isTransient e = true
      · simp [attemptOnce, ho, ht]
      · simp [attemptOnce, ho, ht]
    · simp [attemptOnce, ho]
  | succ f ih =>
    intro k logs delays
    rw [retryLoop]
    rcases ho : outcomes k with e | v
    · by_cases ht : isTransient e = true
      · have hrec := ih (k + 1) (logs ++ [⟨url, e⟩]) (delays + 1)
        simp only [attemptOnce, ho, ht, if_true]
        omega
      · simp [attemptOnce, ho, ht]
    · simp [attemptOnce, ho]

theorem foldl_collectTitle :
    ∀ (items : List XmlItem) (acc : List String),
      items.foldl collectTitle acc =
        acc ++ items.filterMap (fun it => it.title) := by
  intro items
  induction items with
  | nil => intro acc; simp
  | cons a t ih =>
    intro acc
    rcases ha : a.title with _ | s
    · simp [List.foldl_cons, collectTitle, ha, ih, List.filterMap_cons]
    · simp [List.foldl_cons, collectTitle, ha, ih (acc ++ [s]),
        List.filterMap_cons]

theorem get_it_eq_take (root : RssRoot) :
    get_it root = (root.items.filterMap (fun it => it.title)).take 11 := by
  simp only [get_it]
  rw [foldl_collectTitle root.items [], List.nil_append, take_if_gt]

theorem trunc_length_le {α : Type} (l : List α) (n : Nat) :
    (if l.length > n then l.take n else l).length ≤ n ∨
      (if l.length > n then l.take n else l) = l := by
  by_cases h : l.length > n
  · left
    rw [if_pos h, List.length_take]
    exact Nat.min_le_left n l.length
  · right
    rw [if_neg h]

theorem trunc_length_le_of_le {α : Type} (l : List α) (n : Nat) :
    (if l.length > n then l.take n else l).length ≤ n := by
  rw [take_if_gt, List.length_take]
  exact Nat.min_le_left n l.length

theorem getD_bili :
    ∀ (items : List BiliItem) (idx : Nat),
      (get_bili items).getD idx "" = (items.getD idx ⟨""⟩).keyword := by
  intro items
  induction items with
  | nil => intro idx; rfl
  | cons a t ih =>
    intro idx
    cases idx with
    | zero => rfl
    | succ m =>
      simp only [get_bili, List.map_cons, List.getD_cons_succ]
      exact ih m

theorem get_anime_ok (arr : List AnimeDay) (week : Nat) (h : arr ≠ []) :
    get_anime arr week = .ok
      (((if week < arr.length then arr.getD week ⟨[]⟩
          else arr.getLastD ⟨[]⟩).items.map
        (fun d => (animeName d, d.image))).take 8) := by
  unfold get_anime
  by_cases hw : week < arr.length
  · rw [pyGet_nat_ok arr week ⟨[]⟩ hw]
    simp only [hw, if_true]
    rw [take_if_gt]
  · rw [pyGet_nat_err arr week (by omega), pyGet_neg_one arr ⟨[]⟩ h]
    simp only [hw, if_false]
    rw [take_if_gt]

theorem get_anime_len (arr : List AnimeDay) (week : Nat)
    (l : List (String × String)) (h : get_anime arr week = .ok l) :
    l.length ≤ 8 := by
  unfold get_anime at h
  rcases h1 : pyGet arr (week : Int) with e | day
  · rw [h1] at h
    rcases h2 : pyGet arr (-1) with e2 | day2
    · rw [h2] at h
      exact absurd h (by simp)
    · rw [h2] at h
      have := Except.ok.inj h
      rw [← this]
      exact trunc_length_le_of_le _ 8
  · rw [h1] at h
    have := Except.ok.inj h
    rw [← this]
    exact trunc_length_le_of_le _ 8

/-!
## Claim theorems
-/

/-- Claim C2: with `n` the whole days elapsed since 2016-01-01,
`festival_calculation` scans `favs_arr` in steps of 2 and, at the first
even-step index `i` with `favs_arr[i] >= n`, returns exactly the 7 pairs
`(favs_arr[i+2j] - n, favs_list[favs_arr[i+2j+1]])` for `j = 0..6` and stops
scanning; if no scanned threshold is `>= n` it returns the empty list
without error. -/
theorem festival_calculation_first_block (arr : List Int) (lst : List String)
    (n : Int) (i : Nat) :
    ((i % 2 = 0 ∧ i < arr.length ∧ n ≤ arr.getD i 0 ∧
      (∀ k, k < i → k % 2 = 0 → arr.getD k 0 < n) ∧ i + 13 < arr.length ∧
      (∀ j, j < 7 → 0 ≤ arr.getD (i + 2 * j + 1) 0 ∧
        arr.getD (i + 2 * j + 1) 0 < lst.length)) →
      festival_calculation arr lst n = .ok ((List.range 7).map (fun j =>
        (arr.getD (i + 2 * j) 0 - n,
          lst.getD (arr.getD (i + 2 * j + 1) 0).toNat "")))) ∧
    ((∀ k, k < arr.length → k % 2 = 0 → arr.getD k 0 < n) →
      festival_calculation arr lst n = .ok []) := by
  constructor
  · rintro ⟨hev, hlt, hge, hbef, hb, hlab⟩
    rw [festival_first_match arr lst n i hev hlt hge hbef,
      festWindow_ok arr lst n i hb hlab]
  · intro hall
    unfold festival_calculation
    apply festLoop_all_lt
    intro k hk
    obtain ⟨he, hl⟩ := mem_festIndices arr.length k hk
    exact hall k hl he

theorem festival_calculation_first_block_witness :
    festival_calculation [10, 0, 11, 1, 12, 0, 13, 1, 14, 0, 15, 1, 16, 0]
        ["a", "b"] 5 =
      .ok [(5, "a"), (6, "b"), (7, "a"), (8, "b"), (9, "a"), (10, "b"),
        (11, "a")] ∧
    festival_calculation [10, 0, 11, 1, 12, 0, 13, 1, 14, 0, 15, 1, 16, 0]
        ["a", "b"] 100 = .ok [] := by
  constructor
  · have h := (festival_calculation_first_block
      [10, 0, 11, 1, 12, 0, 13, 1, 14, 0, 15, 1, 16, 0] ["a", "b"] 5 0).1
      (by refine ⟨by decide, by decide, by decide, ?_, by decide, ?_⟩
          · intro k hk
            exact absurd hk (Nat.not_lt_zero k)
          · decide)
    rw [h]
    decide
  · exact (festival_calculation_first_block
      [10, 0, 11, 1, 12, 0, 13, 1, 14, 0, 15, 1, 16, 0] ["a", "b"] 100 0).2
      (by decide)

/-- Claim C10: if the first even-step index `i` with `favs_arr[i] >= n`
starts fewer than 14 elements before the end of `favs_arr`, the scan
accesses an index out of bounds and `festival_calculation` raises an
`IndexError` instead of returning a list. -/
theorem festival_window_overrun (arr : List Int) (lst : List String)
    (n : Int) (i : Nat) (hev : i % 2 = 0) (hlt : i < arr.length)
    (hge : n ≤ arr.getD i 0)
    (hbefore : ∀ k, k < i → k % 2 = 0 → arr.getD k 0 < n)
    (hshort : arr.length ≤ i + 13) :
    festival_calculation arr lst n = .error .indexError := by
  rw [festival_first_match arr lst n i hev hlt hge hbefore,
    festWindow_err arr lst n i hshort]

theorem festival_window_overrun_witness :
    festival_calculation [5] [] 0 = .error .indexError :=
  festival_window_overrun [5] [] 0 0 rfl (by decide) (by decide)
    (fun k hk _ => absurd hk (Nat.not_lt_zero k)) (by decide)

/-- Claim C3: `AsyncHttpx.get(url)` makes at most 3 total attempts with a
fixed 1-unit delay between attempts; an attempt is retried exactly when it
fails with a timeout, connection failure, or HTTP error-status exception;
any other exception propagates immediately without retry; after the third
transient failure the failure propagates (tenacity's `RetryError` wrapping
the last cause); each transient failure is logged with the URL and the
underlying cause. -/
theorem asyncHttpx_retry_policy (url : String)
    (outcomes : Nat → Except Exc String) :
    (asyncHttpxGet url outcomes).attempts ≤ 3 ∧
    (∀ v, outcomes 0 = .ok v →
      asyncHttpxGet url outcomes = ⟨[], 0, 1, .ok v⟩) ∧
    (∀ e, outcomes 0 = .error e → isTransient e = false →
      asyncHttpxGet url outcomes = ⟨[], 0, 1, .error (.raised e)⟩) ∧
    (∀ e v, outcomes 0 = .error e → isTransient e = true →
      outcomes 1 = .ok v →
      asyncHttpxGet url outcomes = ⟨[⟨url, e⟩], 1, 2, .ok v⟩) ∧
    (∀ e0 e1 e2, outcomes 0 = .error e0 → outcomes 1 = .error e1 →
      outcomes 2 = .error e2 → isTransient e0 = true →
      isTransient e1 = true → isTransient e2 = true →
      asyncHttpxGet url outcomes =
        ⟨[⟨url, e0⟩, ⟨url, e1⟩, ⟨url, e2⟩], 2, 3,
          .error (.retryError e2)⟩) := by
  refine ⟨?_, ?_, ?_, ?_, ?_⟩
  · have h := retryLoop_attempts url outcomes 2 0 [] 0
    simpa [asyncHttpxGet] using h
  · intro v h0
    unfold asyncHttpxGet
    rw [retryLoop]
    simp [attemptOnce, h0]
  · intro e h0 ht
    unfold asyncHttpxGet
    rw [retryLoop]
    simp [attemptOnce, h0, ht]
  · intro e v h0 ht h1
    unfold asyncHttpxGet
    rw [retryLoop]
    simp only [attemptOnce, h0, ht, if_true]
    rw [retryLoop]
    simp [attemptOnce, h1]
  · intro e0 e1 e2 h0 h1 h2 ht0 ht1 ht2
    unfold asyncHttpxGet
    rw [retryLoop]
    simp only [attemptOnce, h0, ht0, if_true]
    rw [retryLoop]
    simp only [attemptOnce, h1, ht1, if_true]
    rw [retryLoop]
    simp [attemptOnce, h2, ht2]

theorem asyncHttpx_retry_policy_witness :
    asyncHttpxGet "u" (fun _ => .error .timeout) =
      ⟨[⟨"u", .timeout⟩, ⟨"u", .timeout⟩, ⟨"u", .timeout⟩], 2, 3,
        .error (.retryError .timeout)⟩ ∧
    asyncHttpxGet "u" (fun _ => .error .otherError) =
      ⟨[], 0, 1, .error (.raised .otherError)⟩ :=
  ⟨(asyncHttpx_retry_policy "u" (fun _ => .error .timeout)).2.2.2.2
      .timeout .timeout .timeout rfl rfl rfl rfl rfl rfl,
    (asyncHttpx_retry_policy "u" (fun _ => .error .otherError)).2.2.1
      .otherError rfl rfl⟩

/-- Claim C4 counterexample: the trending adapter does NOT truncate to 11 —
on a body whose `list` field holds 12 keyword objects, `get_bili` returns
all 12, so the claimed "trending keywords truncated to at most 11 items"
is false. -/
theorem trending_truncation_cex :
    ¬ ((get_bili (List.replicate 12 ⟨"k"⟩)).length ≤ 11) := by decide

/-- Claim C4 (amended): the aggregate-feed and news adapters truncate to the
first 11 items and the anime adapter to the first 8, always keeping a prefix
in source order (`List.take`); the trending adapter is the exception and
returns every keyword untruncated. -/
theorem truncation_invariant_amended :
    (∀ news : List String, get_six news = news.take 11) ∧
    (∀ root : RssRoot, get_it root =
      (root.items.filterMap (fun it => it.title)).take 11) ∧
    (∀ (arr : List AnimeDay) (week : Nat), arr ≠ [] →
      get_anime arr week = .ok
        (((if week < arr.length then arr.getD week ⟨[]⟩
            else arr.getLastD ⟨[]⟩).items.map
          (fun d => (animeName d, d.image))).take 8)) ∧
    (∀ items : List BiliItem, (get_bili items).length = items.length) := by
  refine ⟨?_, ?_, ?_, ?_⟩
  · intro news
    unfold get_six
    exact take_if_gt news 11
  · intro root
    exact get_it_eq_take root
  · intro arr week h
    exact get_anime_ok arr week h
  · intro items
    simp [get_bili]

theorem truncation_invariant_amended_witness :
    get_anime [⟨[⟨none, "x", "i"⟩]⟩] 3 = .ok [("x", "i")] := by
  have h := truncation_invariant_amended.2.2.1 [⟨[⟨none, "x", "i"⟩]⟩] 3
    (by decide)
  rw [h]
  decide

/-- Claim C5: `get_bili` returns the `keyword` of every element of the
`list` array, in source order, with no truncation at any length — unlike
the aggregate-feed, news, and anime adapters, whose own output never
exceeds 11, 11, and 8 items respectively. -/
theorem trending_untruncated_asymmetry :
    (∀ items : List BiliItem, (get_bili items).length = items.length) ∧
    (∀ (items : List BiliItem) (idx : Nat),
      (get_bili items).getD idx "" = (items.getD idx ⟨""⟩).keyword) ∧
    (∀ news : List String, (get_six news).length ≤ 11) ∧
    (∀ root : RssRoot, (get_it root).length ≤ 11) ∧
    (∀ (arr : List AnimeDay) (week : Nat) (l : List (String × String)),
      get_anime arr week = .ok l → l.length ≤ 8) := by
  refine ⟨?_, ?_, ?_, ?_, ?_⟩
  · intro items
    simp [get_bili]
  · exact getD_bili
  · intro news
    unfold get_six
    exact trunc_length_le_of_le news 11
  · intro root
    rw [get_it_eq_take root, List.length_take]
    exact Nat.min_le_left _ _
  · exact get_anime_len

theorem trending_untruncated_asymmetry_witness :
    get_anime [⟨[⟨none, "x", "i"⟩]⟩] 0 = .ok [("x", "i")] ∧
    ([("x", "i")] : List (String × String)).length ≤ 8 :=
  ⟨by decide,
    trending_untruncated_asymmetry.2.2.2.2 [⟨[⟨none, "x", "i"⟩]⟩] 0
      [("x", "i")] (by decide)⟩

/-- Claim C6: for a non-empty calendar array, `get_anime` selects the
element at index `weekday` when in range and otherwise falls back to the
LAST element (not index 0), and it never fails, even when the array has
fewer than 7 entries. -/
theorem anime_weekday_selection (arr : List AnimeDay) (week : Nat)
    (h : arr ≠ []) :
    get_anime arr week = .ok
      (((if week < arr.length then arr.getD week ⟨[]⟩
          else arr.getLastD ⟨[]⟩).items.map
        (fun d => (animeName d, d.image))).take 8) :=
  get_anime_ok arr week h

theorem anime_weekday_selection_witness :
    get_anime [⟨[⟨none, "a", "ia"⟩]⟩, ⟨[⟨none, "b", "ib"⟩]⟩,
        ⟨[⟨some "丙", "c", "ic"⟩]⟩] 5 =
      .ok [("丙", "ic")] := by
  have h := anime_weekday_selection [⟨[⟨none, "a", "ia"⟩]⟩,
    ⟨[⟨none, "b", "ib"⟩]⟩, ⟨[⟨some "丙", "c", "ic"⟩]⟩] 5 (by decide)
  rw [h]
  decide

/-- Claim C8: `get_it` returns the `<title>` text of each `channel/item`
entry in document order, skipping entries with no `<title>` element, and
returns only the first 11 titles when more than 11 exist, otherwise all of
them. -/
theorem news_titles_spec (root : RssRoot) :
    ((root.items.filterMap (fun it => it.title)).length > 11 →
      get_it root = (root.items.filterMap (fun it => it.title)).take 11) ∧
    ((root.items.filterMap (fun it => it.title)).length ≤ 11 →
      get_it root = root.items.filterMap (fun it => it.title)) := by
  constructor
  · intro _
    exact get_it_eq_take root
  · intro h
    rw [get_it_eq_take root, List.take_of_length_le h]

theorem news_titles_spec_witness :
    get_it ⟨[⟨some "t1"⟩, ⟨none⟩, ⟨some "t2"⟩, ⟨some "t3"⟩, ⟨some "t4"⟩,
        ⟨some "t5"⟩, ⟨some "t6"⟩, ⟨some "t7"⟩, ⟨some "t8"⟩, ⟨some "t9"⟩,
        ⟨some "t10"⟩, ⟨some "t11"⟩, ⟨some "t12"⟩, ⟨some "t13"⟩]⟩ =
      ["t1", "t2", "t3", "t4", "t5", "t6", "t7", "t8", "t9", "t10",
        "t11"] ∧
    get_it ⟨[⟨some "a"⟩, ⟨none⟩, ⟨some "b"⟩]⟩ = ["a", "b"] := by
  constructor
  · have h := (news_titles_spec ⟨[⟨some "t1"⟩, ⟨none⟩, ⟨some "t2"⟩,
      ⟨some "t3"⟩, ⟨some "t4"⟩, ⟨some "t5"⟩, ⟨some "t6"⟩, ⟨some "t7"⟩,
      ⟨some "t8"⟩, ⟨some "t9"⟩, ⟨some "t10"⟩, ⟨some "t11"⟩, ⟨some "t12"⟩,
      ⟨some "t13"⟩]⟩).1 (by decide)
    rw [h]
    decide
  · have h := (news_titles_spec ⟨[⟨some "a"⟩, ⟨none⟩, ⟨some "b"⟩]⟩).2
      (by decide)
    rw [h]
    decide

/-- Claim C9: on an empty JSON array, `get_anime` raises: the fallback
access to the last element of an empty array fails with `IndexError` and
propagates; it does not silently return an empty list. -/
theorem anime_empty_array_raises (week : Nat) :
    get_anime [] week = .error .indexError := by
  unfold get_anime
  rw [pyGet_nat_err [] week (by simp), pyGet_nil]

theorem hit_immediate (date : String) (env : Env) (s : ReportState)
    (b : Bytes) (hc : cacheLookup s date = some b) :
    get_report_image date env s = ⟨.ok b, s, 0⟩ := by
  unfold get_report_image
  rw [hc]

theorem cache_after_ok (date : String) (env : Env) (s : ReportState)
    (b : Bytes) (h : (get_report_image date env s).result = .ok b) :
    cacheLookup (get_report_image date env s).state date = some b := by
  unfold get_report_image at h ⊢
  set c := cacheLookup s date with hcl
  clear_value c
  rcases c with _ | bs
  · set fr := festival_calculation env.favs_arr env.favs_list env.n with hf
    clear_value fr
    rcases fr with e | fest
    · simp at h
    · set o1 := env.hitokoto with h1
      clear_value o1
      rcases o1 with e | hito
      · simp at h
      · set o2 := env.bili with h2
        clear_value o2
        rcases o2 with e | bl
        · simp at h
        · set o3 := env.six with h3
          clear_value o3
          rcases o3 with e | sx
          · simp at h
          · set o4 := env.anime with h4
            clear_value o4
            rcases o4 with e | an
            · simp at h
            · set o5 := env.it with h5
              clear_value o5
              rcases o5 with e | itl
              · simp at h
              · dsimp only at h ⊢
                rcases hr : env.render ⟨fest, hito, bl, sx, an, itl,
                    weekLabel env.weekday, date, env.zh_date⟩ with e | bs2
                · rw [hr] at h
                  simp at h
                · rw [hr] at h
                  dsimp only at h ⊢
                  have hb2 : bs2 = b := by simpa using h
                  subst hb2
                  simp [cacheLookup, List.find?_cons]
  · dsimp only at h ⊢
    have hb2 : bs = b := by simpa using h
    subst hb2
    exact hcl.symm

/-- Claim C1: for every date `D`, calling `get_report_image` twice on the
same calendar date performs network I/O at most once: when the first call
succeeds, the second call finds the cached artifact, performs zero adapter
fetches, leaves the cache unchanged, and returns bytes identical to those
returned by the first call. -/
theorem report_cache_idempotent (date : String) (env1 env2 : Env)
    (s : ReportState) (b : Bytes)
    (h : (get_report_image date env1 s).result = .ok b) :
    get_report_image date env2 (get_report_image date env1 s).state =
      ⟨.ok b, (get_report_image date env1 s).state, 0⟩ :=
  hit_immediate date env2 _ b (cache_after_ok date env1 s b h)

theorem report_cache_idempotent_witness :
    get_report_image "2025-01-01"
        ⟨[], [], 0, .error "x", .ok [], .ok [], .ok [], .ok [], 0, "",
          fun _ => .ok []⟩
        ((get_report_image "2025-01-01"
          ⟨[], [], 0, .ok "h", .ok [], .ok [], .ok [], .ok [], 0, "z",
            fun _ => .ok [1, 2, 3]⟩ ⟨[]⟩).state) =
      ⟨.ok [1, 2, 3],
        (get_report_image "2025-01-01"
          ⟨[], [], 0, .ok "h", .ok [], .ok [], .ok [], .ok [], 0, "z",
            fun _ => .ok [1, 2, 3]⟩ ⟨[]⟩).state, 0⟩ :=
  report_cache_idempotent "2025-01-01"
    ⟨[], [], 0, .ok "h", .ok [], .ok [], .ok [], .ok [], 0, "z",
      fun _ => .ok [1, 2, 3]⟩
    ⟨[], [], 0, .error "x", .ok [], .ok [], .ok [], .ok [], 0, "",
      fun _ => .ok []⟩
    ⟨[]⟩ [1, 2, 3] rfl

/-- Claim C7: on a cache miss, if any one adapter fails, the whole
`get_report_image` call fails — no report is composed with missing
sections — and no cache artifact is written for that date (the cache
write happens only after a successful full render), so the cache state is
unchanged on error. -/
theorem report_no_partial_no_cache_write (date : String) (env : Env)
    (s : ReportState) (hmiss : cacheLookup s date = none)
    (hfail : (∃ e, env.hitokoto = .error e) ∨ (∃ e, env.bili = .error e) ∨
      (∃ e, env.six = .error e) ∨ (∃ e, env.anime = .error e) ∨
      (∃ e, env.it = .error e)) :
    (∃ e, (get_report_image date env s).result = .error e) ∧
    (get_report_image date env s).state = s := by
  unfold get_report_image
  rw [hmiss]
  rcases hf : festival_calculation env.favs_arr env.favs_list env.n
    with e | fest
  · exact ⟨⟨"IndexError", rfl⟩, rfl⟩
  · rcases hh : env.hitokoto with e | hito
    · exact ⟨⟨e, rfl⟩, rfl⟩
    · rcases hb : env.bili with e | bl
      · exact ⟨⟨e, rfl⟩, rfl⟩
      · rcases hs : env.six with e | sx
        · exact ⟨⟨e, rfl⟩, rfl⟩
        · rcases ha : env.anime with e | an
          · exact ⟨⟨e, rfl⟩, rfl⟩
          · rcases hi : env.it with e | itl
            · exact ⟨⟨e, rfl⟩, rfl⟩
            · exfalso
              rcases hfail with ⟨e, he⟩ | ⟨e, he⟩ | ⟨e, he⟩ | ⟨e, he⟩ |
                ⟨e, he⟩
              · rw [hh] at he
                exact absurd he (by simp)
              · rw [hb] at he
                exact absurd he (by simp)
              · rw [hs] at he
                exact absurd he (by simp)
              · rw [ha] at he
                exact absurd he (by simp)
              · rw [hi] at he
                exact absurd he (by simp)

theorem report_no_partial_no_cache_write_witness :
    (∃ e, (get_report_image "2025-01-02"
        ⟨[], [], 0, .error "boom", .ok [], .ok [], .ok [], .ok [], 0, "",
          fun _ => .ok []⟩ ⟨[]⟩).result = .error e) ∧
    (get_report_image "2025-01-02"
        ⟨[], [], 0, .error "boom", .ok [], .ok [], .ok [], .ok [], 0, "",
          fun _ => .ok []⟩ ⟨[]⟩).state = ⟨[]⟩ :=
  report_no_partial_no_cache_write "2025-01-02"
    ⟨[], [], 0, .error "boom", .ok [], .ok [], .ok [], .ok [], 0, "",
      fun _ => .ok []⟩ ⟨[]⟩ rfl (Or.inl ⟨"boom", rfl⟩)
